import Mathlib

/-!
Verification of the citation-network expansion module of this repository
(src/extend_pmid.py).  The external PubMed provider is modelled by
attempt-indexed oracles: an oracle value of `none` at a given attempt means
that call raised, `some v` means it returned `v`.  The random jitter drawn by
the backoff helper is modelled as an arbitrary function `Nat → ℚ`, constrained
in theorems by the bound `uniform(0, 0.1 * delay)` guarantees.  Python's
bounded call stack is modelled by a fuel parameter: a recursive call made with
no fuel left raises (RecursionError), which the caller's `except` clause
catches.  Float arithmetic in `ceil(min_pmid * 1.5 / len(pmid_set))` is
embedded as the exact natural-number ceiling of `3 * min_pmid / (2 * len)`.
-/

namespace ExtendPmid

/-- Capped delay computed by `_exponential_backoff`:
`min(base_delay * 2 ** attempt, max_delay)` with the defaults `base_delay = 1`
and `max_delay = 60` used by every call site in the file. -/
def backoffDelay (attempt : Nat) : ℚ :=
  min ((1 : ℚ) * 2 ^ attempt) 60

/-- Value returned by `_exponential_backoff`: the capped delay plus the sampled
jitter (the code draws `random.uniform(0, 0.1 * delay)`; the draw is the
oracle `jitter`). -/
def exponential_backoff (jitter : Nat → ℚ) (attempt : Nat) : ℚ :=
  backoffDelay attempt + jitter attempt

/-- Retry loop shared verbatim by `Article._fetch_bib` and
`Article._fetch_related` (lines 34-71): `for attempt in range(max_retries)`,
try the fetch; on failure compute the backoff delay, raise if
`attempt == max_retries - 1`, otherwise sleep and retry.  The first component
is `.error ()` when the loop raised after exhausting its retries,
`.ok (some v)` on success, and `.ok none` when `max_retries = 0` (the loop
body never runs, so the method returns with the attribute left unset).  The
second component is the list of sleep durations actually slept, the third the
number of provider-fetch invocations. -/
def fetchLoopGo {α : Type} (op : Nat → Option α) (jitter : Nat → ℚ)
    (maxRetries : Nat) : Nat → Nat → Except Unit (Option α) × List ℚ × Nat
  | _, 0 => (.ok none, [], 0)
  | attempt, r + 1 =>
    match op attempt with
    | some v => (.ok (some v), [], 1)
    | none =>
      if attempt = maxRetries - 1 then (.error (), [], 1)
      else
        let rest := fetchLoopGo op jitter maxRetries (attempt + 1) r
        (rest.1, exponential_backoff jitter attempt :: rest.2.1, 1 + rest.2.2)

/-- The retry loop started at attempt 0 with `max_retries` iterations
remaining. -/
def fetchLoop {α : Type} (op : Nat → Option α) (jitter : Nat → ℚ)
    (maxRetries : Nat) : Except Unit (Option α) × List ℚ × Nat :=
  fetchLoopGo op jitter maxRetries 0 maxRetries

/-- Conversion at the top of `Article.__init__` (lines 25-27): an `int` pmid is
converted with `str(...)`, a `str` pmid is stored as given. -/
def normalizePmid : Int ⊕ String → String
  | .inl n => toString n
  | .inr s => s

/-- State of a fully constructed `Article`: the pmid (always a string), the
optional bibliography (set only when `include_bib` was requested and
`max_retries > 0`), and the related map (set whenever `max_retries > 0`). -/
structure ArticleData (β γ : Type) where
  pmid : String
  bib : Option β
  related : Option γ
  deriving DecidableEq

/-- Embedding of `Article.__init__` (lines 24-32): normalize the pmid, fetch
the bibliography first when `include_bib`, then fetch the related sets.  The
first component is `none` when the constructor raised; the second component
records whether `_fetch_related` was invoked at all. -/
def articleInit {β γ : Type} (bibOp : Nat → Option β) (relOp : Nat → Option γ)
    (jitter : Nat → ℚ) (pmid : Int ⊕ String) (includeBib : Bool)
    (maxRetries : Nat) : Option (ArticleData β γ) × Bool :=
  let p := normalizePmid pmid
  if includeBib then
    match (fetchLoop bibOp jitter maxRetries).1 with
    | .error _ => (none, false)
    | .ok b =>
      match (fetchLoop relOp jitter maxRetries).1 with
      | .error _ => (none, true)
      | .ok r => (some ⟨p, b, r⟩, true)
  else
    match (fetchLoop relOp jitter maxRetries).1 with
    | .error _ => (none, true)
    | .ok r => (some ⟨p, none, r⟩, true)

/-- Per-identifier construction loop inside `_extend_pmid_set` (lines 91-103):
`for attempt in range(max_retries)`, construct `Article(pmid)` (whose only
fetch here is the related fetch, itself retried `max_retries` times); on
success append and break; after the last failed attempt log and move on.
`relOp i j` is the outcome of the provider's related fetch at construction
attempt `i`, inner retry `j`.  Returns the constructed article's related data
(`none` when every attempt failed) and the total number of provider-fetch
invocations. -/
def constructArticleGo {γ : Type} (relOp : Nat → Nat → Option γ)
    (jitter : Nat → ℚ) (maxRetries : Nat) :
    Nat → Nat → Option (Option γ) × Nat
  | _, 0 => (none, 0)
  | attempt, r + 1 =>
    match (fetchLoop (relOp attempt) jitter maxRetries).1 with
    | .ok v => (some v, (fetchLoop (relOp attempt) jitter maxRetries).2.2)
    | .error _ =>
      if attempt = maxRetries - 1 then
        (none, (fetchLoop (relOp attempt) jitter maxRetries).2.2)
      else
        let rest := constructArticleGo relOp jitter maxRetries (attempt + 1) r
        (rest.1, (fetchLoop (relOp attempt) jitter maxRetries).2.2 + rest.2)

/-- The construction loop started at attempt 0. -/
def constructArticle {γ : Type} (relOp : Nat → Nat → Option γ)
    (jitter : Nat → ℚ) (maxRetries : Nat) : Option (Option γ) × Nat :=
  constructArticleGo relOp jitter maxRetries 0 maxRetries

/-- Ceiling division on naturals: the exact value of `ceil(a / b)` for
`b > 0`. -/
def ceilDiv (a b : Nat) : Nat := (a + b - 1) / b

/-- Fan-out computed at line 86 of `_extend_pmid_set`:
`topk = min(ceil(min_pmid * 1.5 / len(pmid_set)), topk)`. -/
def effectiveTopk (minPmid card topk : Nat) : Nat :=
  min (ceilDiv (3 * minPmid) (2 * card)) topk

/-- One expansion round (lines 89-108): every pmid whose article construction
eventually succeeds contributes the first `k` entries of its
`related["pubmed"]` list; the new set is the union of the input set with those
contributions.  The oracle `fetch` gives, per recursion depth and pmid, the
pubmed list of the successfully constructed article, or `none` when every
construction retry failed (that pmid is then skipped, contributing nothing). -/
def roundNewSet (fetch : Nat → String → Option (List String)) (depth : Nat)
    (s : Finset String) (k : Nat) : Finset String :=
  s ∪ s.biUnion fun p =>
    match fetch depth p with
    | some pubmed => (pubmed.take k).toFinset
    | none => ∅

/-- Instrumented embedding of `_extend_pmid_set` (lines 74-118).  Entry can
raise (oracle `raiseAt`, covering unrecoverable errors such as a
RecursionError at call time; a call on an empty set raises ZeroDivisionError
at line 86).  After the round, recurse when `len(new) < min_pmid and new`; the
recursive call is wrapped in try/except: an error from it (including running
out of fuel, i.e. Python's recursion limit) is caught and the enclosing call
returns the set it computed in its own round.  The recursive call receives the
reduced fan-out as its `topk`, exactly as line 113 does.  The second component
counts how many rounds were executed. -/
def extendPmidSetInstr (fetch : Nat → String → Option (List String))
    (raiseAt : Nat → Bool) :
    Nat → Nat → Finset String → Nat → Nat → Except Unit (Finset String) × Nat
  | depth, fuel, s, topk, minPmid =>
    if raiseAt depth ∨ s = ∅ then (.error (), 0)
    else if (roundNewSet fetch depth s (effectiveTopk minPmid s.card topk)).card < minPmid ∧
        (roundNewSet fetch depth s (effectiveTopk minPmid s.card topk)).Nonempty then
      match fuel with
      | 0 => (.ok (roundNewSet fetch depth s (effectiveTopk minPmid s.card topk)), 1)
      | f + 1 =>
        match extendPmidSetInstr fetch raiseAt (depth + 1) f
            (roundNewSet fetch depth s (effectiveTopk minPmid s.card topk))
            (effectiveTopk minPmid s.card topk) minPmid with
        | (.error _, n) =>
          (.ok (roundNewSet fetch depth s (effectiveTopk minPmid s.card topk)), 1 + n)
        | (.ok res, n) => (.ok res, 1 + n)
    else (.ok (roundNewSet fetch depth s (effectiveTopk minPmid s.card topk)), 1)

/-- Result of `_extend_pmid_set`: the returned set, or `.error` when the call
itself raised. -/
def extend_pmid_set (fetch : Nat → String → Option (List String))
    (raiseAt : Nat → Bool) (depth fuel : Nat) (s : Finset String)
    (topk minPmid : Nat) : Except Unit (Finset String) :=
  (extendPmidSetInstr fetch raiseAt depth fuel s topk minPmid).1

/-- Article as seen by the ranker: its pmid and the three related lists stored
by `_fetch_related`. -/
structure RArticle where
  pmid : String
  pubmed : List String
  citedin : List String
  refs : List String
  deriving DecidableEq

/-- The inbound count computed at lines 155-157:
`len(pmids & set(article.related["citedin"])) + len(pmids & set(article.related["refs"]))`. -/
def inboundCount (pmids : Finset String) (a : RArticle) : Nat :=
  (pmids ∩ a.citedin.toFinset).card + (pmids ∩ a.refs.toFinset).card

/-- Python dict assignment `d[k] = v`: replaces the value in place when the key
is present (keeping its position), appends at the end otherwise. -/
def dictInsert (k : String) (v : Nat) : List (String × Nat) → List (String × Nat)
  | [] => [(k, v)]
  | p :: rest => if p.1 = k then (k, v) :: rest else p :: dictInsert k v rest

/-- Stable insertion step for the descending sort by count: the inserted
element (earlier in the original order) goes before every element whose count
is less than or equal to its own. -/
def insertDesc (x : String × Nat) : List (String × Nat) → List (String × Nat)
  | [] => [x]
  | y :: ys => if y.2 ≤ x.2 then x :: y :: ys else y :: insertDesc x ys

/-- Stable descending sort by count, the behaviour of
`sorted(inbounds.items(), key=lambda item: item[1], reverse=True)`: Python's
sort is stable, and a stable descending sort is extensionally unique, so this
insertion sort computes the same list. -/
def sortDesc : List (String × Nat) → List (String × Nat)
  | [] => []
  | x :: xs => insertDesc x (sortDesc xs)

/-- Embedding of `get_highest_inbound_articles` (lines 150-163): build the
pmid-to-inbound-count dict in article order, stably sort its items by count in
descending order, keep the first `topk` keys, and return the input articles
whose pmid is among those keys, in their original input order. -/
def get_highest_inbound_articles (pmids : Finset String)
    (articles : List RArticle) (topk : Nat) : List RArticle :=
  let inbounds := articles.foldl (fun d a => dictInsert a.pmid (inboundCount pmids a) d) []
  let topInbounds := ((sortDesc inbounds).take topk).map Prod.fst
  articles.filter fun a => a.pmid ∈ topInbounds

/-! ## Helper lemmas -/

/-- The ranker returns a filter of its input list, hence a subsequence. -/
theorem get_highest_sublist (pmids : Finset String) (articles : List RArticle)
    (topk : Nat) :
    (get_highest_inbound_articles pmids articles topk).Sublist articles := by
  unfold get_highest_inbound_articles
  exact List.filter_sublist articles

/-- A list without duplicates whose members all lie in `t` is no longer than
`t`. -/
theorem length_le_of_nodup_subset {α : Type} [DecidableEq α] {l t : List α}
    (hnd : l.Nodup) (hsub : ∀ x ∈ l, x ∈ t) : l.length ≤ t.length := by
  have h1 : l.toFinset.card = l.length := List.toFinset_card_of_nodup hnd
  have h2 : l.toFinset ⊆ t.toFinset := by
    intro x hx
    rw [List.mem_toFinset] at hx ⊢
    exact hsub x hx
  have h3 := Finset.card_le_card h2
  have h4 := List.toFinset_card_le t
  omega

/-! ## Claims about the ranker -/

/-- C9: for every identifier set, article list and topN, the list returned by
`get_highest_inbound_articles` is a subsequence of the input article list:
every returned article appears in the input, in the same relative order. -/
theorem c9_subsequence (pmids : Finset String) (articles : List RArticle)
    (topn : Nat) :
    (get_highest_inbound_articles pmids articles topn).Sublist articles :=
  get_highest_sublist pmids articles topn

/-- C3 counterexample: with identifier set `{a, b}` and articles
`A = (pmid a, no relations)` then `B = (pmid b, citedin [a])`, requesting the
top 2 returns `[A, B]` in input order, whose inbound counts are `0` then `1` —
not sorted in descending order of inbound count, refuting the claim. -/
theorem c3_counterexample :
    get_highest_inbound_articles {"a", "b"}
        [⟨"a", [], [], []⟩, ⟨"b", [], ["a"], []⟩] 2
      = [⟨"a", [], [], []⟩, ⟨"b", [], ["a"], []⟩] ∧
    inboundCount {"a", "b"} ⟨"a", [], [], []⟩ = 0 ∧
    inboundCount {"a", "b"} ⟨"b", [], ["a"], []⟩ = 1 := by
  refine ⟨by rfl, by rfl, by rfl⟩

/-- C3 amended: the ranker selects the topN identifiers by descending inbound
count (stable ties) but returns the selected articles in their original input
order, not sorted; the returned list is a subsequence of the input, and when
the articles carry pairwise distinct pmids its length is at most topN. -/
theorem c3_amended (pmids : Finset String) (articles : List RArticle)
    (topn : Nat) (h : (articles.map RArticle.pmid).Nodup) :
    (get_highest_inbound_articles pmids articles topn).Sublist articles ∧
    (get_highest_inbound_articles pmids articles topn).length ≤ topn := by
  refine ⟨get_highest_sublist pmids articles topn, ?_⟩
  simp only [get_highest_inbound_articles]
  set t := ((sortDesc (articles.foldl
      (fun d a => dictInsert a.pmid (inboundCount pmids a) d) [])).take topn).map
      Prod.fst with ht
  have hsubl : (articles.filter fun a => a.pmid ∈ t).Sublist articles :=
    List.filter_sublist articles
  have hnd : ((articles.filter fun a => a.pmid ∈ t).map RArticle.pmid).Nodup :=
    (hsubl.map RArticle.pmid).nodup h
  have hmem : ∀ x ∈ (articles.filter fun a => a.pmid ∈ t).map RArticle.pmid,
      x ∈ t := by
    intro x hx
    obtain ⟨a, ha, rfl⟩ := List.mem_map.mp hx
    have := List.of_mem_filter ha
    simpa using this
  have hlen := length_le_of_nodup_subset hnd hmem
  rw [List.length_map] at hlen
  have htake : t.length ≤ topn := by
    rw [ht, List.length_map]
    exact List.length_take_le topn _
  omega

/-- C3 witness: a concrete ranking call with distinct pmids whose output is a
subsequence of the input of length at most the requested topN. -/
theorem c3_witness :
    (get_highest_inbound_articles {"a", "b"}
        [⟨"a", [], [], []⟩, ⟨"b", [], ["a"], []⟩] 1).Sublist
      [⟨"a", [], [], []⟩, ⟨"b", [], ["a"], []⟩] ∧
    (get_highest_inbound_articles {"a", "b"}
        [⟨"a", [], [], []⟩, ⟨"b", [], ["a"], []⟩] 1).length ≤ 1 :=
  c3_amended {"a", "b"} [⟨"a", [], [], []⟩, ⟨"b", [], ["a"], []⟩] 1 (by decide)

/-! ## Claims about the fan-out -/

/-- C5 counterexample: with a non-empty set of one pmid, minSize 100 and
topK 0, the computed fan-out is `min(ceil(100 * 1.5 / 1), 0) = 0`, refuting
the claim that the fan-out always satisfies `1 ≤ k`. -/
theorem c5_counterexample : effectiveTopk 100 1 0 = 0 := by decide

/-- C5 amended: the per-round fan-out equals
`min(topK, ceil(minSize * 1.5 / |set|))`, and whenever the caller passes
`topK ≥ 1` and `minSize ≥ 1` (as the defaults 10 and 100 do) this value
satisfies `1 ≤ k ≤ topK` for every non-empty set. -/
theorem c5_amended (minPmid card topk : Nat) (h1 : 1 ≤ minPmid)
    (h2 : 1 ≤ topk) (h3 : 1 ≤ card) :
    1 ≤ effectiveTopk minPmid card topk ∧
    effectiveTopk minPmid card topk ≤ topk := by
  constructor
  · apply le_min _ h2
    unfold ceilDiv
    rw [Nat.one_le_div_iff (by omega)]
    omega
  · exact min_le_right _ _

/-- C5 witness: with the default parameters and a singleton seed set the
fan-out is between 1 and 10. -/
theorem c5_witness :
    1 ≤ effectiveTopk 100 1 10 ∧ effectiveTopk 100 1 10 ≤ 10 :=
  c5_amended 100 1 10 (by decide) (by decide) (by decide)

/-! ## Claims about Article construction -/

/-- Any successfully constructed article stores the normalized pmid in its
pmid field. -/
theorem articleInit_pmid_eq {β γ : Type} (bibOp : Nat → Option β)
    (relOp : Nat → Option γ) (jitter : Nat → ℚ) (pmid : Int ⊕ String)
    (includeBib : Bool) (maxRetries : Nat) :
    ∀ a, (articleInit bibOp relOp jitter pmid includeBib maxRetries).1 = some a →
      a.pmid = normalizePmid pmid := by
  intro a ha
  simp only [articleInit] at ha
  split at ha
  · split at ha
    · simp at ha
    · split at ha
      · simp at ha
      · simp at ha
        rw [← ha]
  · split at ha
    · simp at ha
    · simp at ha
      rw [← ha]

/-- C10: an integer pmid is converted to its decimal string before any use:
constructing from the integer `n` and from the string `str(n)` yields
identical results, and any constructed article stores the string form in its
pmid field. -/
theorem c10_pmid_string {β γ : Type} (n : Int) (bibOp : Nat → Option β)
    (relOp : Nat → Option γ) (jitter : Nat → ℚ) (includeBib : Bool)
    (maxRetries : Nat) :
    articleInit bibOp relOp jitter (.inl n) includeBib maxRetries
      = articleInit bibOp relOp jitter (.inr (toString n)) includeBib maxRetries ∧
    ∀ a, (articleInit bibOp relOp jitter (.inl n) includeBib maxRetries).1 = some a →
      a.pmid = toString n := by
  exact ⟨rfl, fun a ha =>
    articleInit_pmid_eq bibOp relOp jitter (.inl n) includeBib maxRetries a ha⟩

/-- C4 counterexample: with a bibliography fetch that always fails and a
related fetch that always succeeds, construction with `include_bib` fails and
the related-set fetch is never attempted — the bibliography failure does block
the related fetch, refuting the claimed independence. -/
theorem c4_counterexample :
    articleInit (fun _ => (none : Option Unit)) (fun _ => some ()) (fun _ => 0)
      (.inr "1") true 3 = (none, false) := by rfl

/-- C4 amended: the two fetches are sequential, not independent: when the
bibliography is requested and its fetch exhausts its retries, construction
fails immediately and the related-set fetch is never attempted; the
related-set fetch is attempted exactly when the bibliography fetch did not
raise. -/
theorem c4_amended {β γ : Type} (bibOp : Nat → Option β)
    (relOp : Nat → Option γ) (jitter : Nat → ℚ) (pmid : Int ⊕ String)
    (maxRetries : Nat) :
    ((fetchLoop bibOp jitter maxRetries).1 = .error () →
      articleInit bibOp relOp jitter pmid true maxRetries = (none, false)) ∧
    (∀ b, (fetchLoop bibOp jitter maxRetries).1 = .ok b →
      (articleInit bibOp relOp jitter pmid true maxRetries).2 = true) := by
  constructor
  · intro h
    unfold articleInit
    rw [if_pos rfl, h]
  · intro b h
    unfold articleInit
    rw [if_pos rfl, h]
    cases h2 : (fetchLoop relOp jitter maxRetries).1 <;> simp

/-- C4 witness: a concrete always-failing bibliography oracle together with an
always-succeeding related oracle, on which construction fails with the related
fetch unattempted. -/
theorem c4_witness :
    articleInit (fun _ => (none : Option Unit)) (fun _ => some ()) (fun _ => 0)
      (.inr "2") true 2 = (none, false) :=
  (c4_amended (fun _ => (none : Option Unit)) (fun _ => some ()) (fun _ => 0)
    (.inr "2") 2).1 (by rfl)

/-- C10 witness: constructing from the integer 42 stores the string form of
the pmid. -/
theorem c10_witness :
    (ArticleData.mk "42" (none : Option Unit) (some ())).pmid = toString (42 : Int) :=
  (c10_pmid_string 42 (fun _ => some ()) (fun _ => some ()) (fun _ => (0 : ℚ))
    false 1).2 ⟨"42", none, some ()⟩ (by rfl)

/-! ## Claims about the retry loop -/

/-- When the operation fails at attempts `attempt .. attempt+m-1` and succeeds
at `attempt+m`, within the retry budget, the loop returns the success, and the
sleeps are the backoff values of the failed attempts in order. -/
theorem fetchLoopGo_spec {α : Type} (op : Nat → Option α) (jitter : Nat → ℚ)
    (maxRetries : Nat) (v : α) :
    ∀ m attempt, (∀ i, i < m → op (attempt + i) = none) →
      op (attempt + m) = some v → attempt + m < maxRetries →
      fetchLoopGo op jitter maxRetries attempt (maxRetries - attempt)
        = (.ok (some v),
           (List.range m).map fun i => exponential_backoff jitter (attempt + i),
           m + 1) := by
  intro m
  induction m with
  | zero =>
    intro attempt hfail hsucc hlt
    obtain ⟨r, hr⟩ : ∃ r, maxRetries - attempt = r + 1 := ⟨maxRetries - attempt - 1, by omega⟩
    rw [hr]
    rw [Nat.add_zero] at hsucc
    simp [fetchLoopGo, hsucc]
  | succ m ih =>
    intro attempt hfail hsucc hlt
    obtain ⟨r, hr⟩ : ∃ r, maxRetries - attempt = r + 1 := ⟨maxRetries - attempt - 1, by omega⟩
    rw [hr]
    have h0 : op attempt = none := by
      have := hfail 0 (by omega)
      rwa [Nat.add_zero] at this
    have hne : ¬ attempt = maxRetries - 1 := by omega
    have hrest : r = maxRetries - (attempt + 1) := by omega
    have ihx := ih (attempt + 1)
      (fun i hi => by
        have := hfail (i + 1) (by omega)
        rwa [show attempt + (i + 1) = attempt + 1 + i by omega] at this)
      (by rwa [show attempt + 1 + m = attempt + (m + 1) by omega])
      (by omega)
    rw [← hrest] at ihx
    have hfun : (fun i => exponential_backoff jitter (attempt + 1 + i))
        = ((fun i => exponential_backoff jitter (attempt + i)) ∘ Nat.succ) := by
      funext i
      simp only [Function.comp_apply]
      congr 1
      omega
    have hlist : exponential_backoff jitter attempt ::
        (List.range m).map (fun i => exponential_backoff jitter (attempt + 1 + i))
        = (List.range (m + 1)).map fun i => exponential_backoff jitter (attempt + i) := by
      rw [List.range_succ_eq_map, List.map_cons, List.map_map, hfun]
      simp
    simp only [fetchLoopGo, h0, if_neg hne, ihx, Prod.mk.injEq]
    refine ⟨by simp, by rw [← hlist], by omega⟩

/-- Uncapped backoff delays grow, jitter included: as long as the exponential
base of the earlier attempt has not reached the 60-second cap, the slept
duration cannot decrease, whatever the sampled jitters. -/
theorem backoff_mono (jitter : Nat → ℚ)
    (hjit : ∀ i, 0 ≤ jitter i ∧ jitter i ≤ 1 / 10 * backoffDelay i)
    (i : Nat) (hcap : (2 : ℚ) ^ i ≤ 60) :
    exponential_backoff jitter i ≤ exponential_backoff jitter (i + 1) := by
  have hpow : (0 : ℚ) < 2 ^ i := by positivity
  have hbd : backoffDelay i = 2 ^ i := by
    unfold backoffDelay
    rw [one_mul, min_eq_left hcap]
  have hub : exponential_backoff jitter i ≤ 11 / 10 * 2 ^ i := by
    have h2 := (hjit i).2
    rw [hbd] at h2
    unfold exponential_backoff
    rw [hbd]
    linarith
  have hlb : min ((1 : ℚ) * 2 ^ (i + 1)) 60 ≤ exponential_backoff jitter (i + 1) := by
    have h1 := (hjit (i + 1)).1
    unfold exponential_backoff backoffDelay
    linarith
  by_cases hc : (2 : ℚ) ^ (i + 1) ≤ 60
  · have hmin : min ((1 : ℚ) * 2 ^ (i + 1)) 60 = 2 ^ (i + 1) := by
      rw [one_mul, min_eq_left hc]
    have hdouble : (11 / 10 : ℚ) * 2 ^ i ≤ 2 ^ (i + 1) := by
      rw [pow_succ]
      nlinarith
    rw [hmin] at hlb
    linarith
  · have hi5 : i = 5 := by
      push_neg at hc
      have hle5 : i ≤ 5 := by
        by_contra hgt
        push_neg at hgt
        have : (2 : ℚ) ^ 6 ≤ 2 ^ i := pow_le_pow_right₀ (by norm_num) (by omega)
        norm_num at this
        linarith
      have hge5 : 5 ≤ i := by
        by_contra hlt5
        push_neg at hlt5
        have : (2 : ℚ) ^ (i + 1) ≤ 2 ^ 5 := pow_le_pow_right₀ (by norm_num) (by omega)
        norm_num at this
        linarith
      omega
    subst hi5
    have hmin : min ((1 : ℚ) * 2 ^ (5 + 1)) 60 = 60 := by norm_num
    rw [hmin] at hlb
    norm_num at hub
    linarith

/-- C7: an operation failing exactly `m < max_retries` times before
succeeding makes the retry loop return the success result and sleep exactly
`m` times, the sleeps being the backoff values of attempts `0 .. m-1`; and for
every realization of the jitter within its 10 percent bound, successive sleep
durations are non-decreasing as long as the exponential base has not reached
the 60-second cap. -/
theorem c7_retry {α : Type} (op : Nat → Option α) (jitter : Nat → ℚ)
    (maxRetries m : Nat) (v : α)
    (hfail : ∀ i, i < m → op i = none) (hsucc : op m = some v)
    (hm : m < maxRetries)
    (hjit : ∀ i, 0 ≤ jitter i ∧ jitter i ≤ 1 / 10 * backoffDelay i) :
    (fetchLoop op jitter maxRetries).1 = .ok (some v) ∧
    (fetchLoop op jitter maxRetries).2.1
      = (List.range m).map (exponential_backoff jitter) ∧
    (fetchLoop op jitter maxRetries).2.1.length = m ∧
    ∀ i, (2 : ℚ) ^ i ≤ 60 →
      exponential_backoff jitter i ≤ exponential_backoff jitter (i + 1) := by
  have hspec := fetchLoopGo_spec op jitter maxRetries v m 0
    (fun i hi => by simpa using hfail i hi)
    (by simpa using hsucc) (by omega)
  rw [Nat.sub_zero] at hspec
  unfold fetchLoop
  rw [hspec]
  refine ⟨rfl, by simp, by simp, fun i hcap => backoff_mono jitter hjit i hcap⟩

/-- C7 witness: an operation failing twice then succeeding, with zero jitter
and three allowed attempts, returns the success and sleeps twice. -/
theorem c7_witness :
    (fetchLoop (fun i => if i < 2 then (none : Option Nat) else some 7)
        (fun _ => 0) 3).1 = .ok (some 7) ∧
    (fetchLoop (fun i => if i < 2 then (none : Option Nat) else some 7)
        (fun _ => 0) 3).2.1.length = 2 := by
  have h := c7_retry (fun i => if i < 2 then (none : Option Nat) else some 7)
    (fun _ => 0) 3 2 7
    (fun i hi => by simp [hi]) (by norm_num) (by norm_num)
    (fun i => ⟨le_refl 0, by
      have hnn : (0 : ℚ) ≤ backoffDelay i := le_min (by positivity) (by norm_num)
      linarith⟩)
  exact ⟨h.1, h.2.2.1⟩

/-- If the related fetch fails at every attempt, one pass of the inner retry
loop raises after exactly `remaining` provider invocations. -/
theorem fetchLoopGo_fail {α : Type} (op : Nat → Option α) (jitter : Nat → ℚ)
    (maxRetries : Nat) (hop : ∀ i, op i = none) :
    ∀ remaining attempt, attempt + remaining = maxRetries → 1 ≤ remaining →
      (fetchLoopGo op jitter maxRetries attempt remaining).1 = .error () ∧
      (fetchLoopGo op jitter maxRetries attempt remaining).2.2 = remaining := by
  intro remaining
  induction remaining with
  | zero => intro attempt _ h; omega
  | succ r ih =>
    intro attempt hsum _
    by_cases hl : attempt = maxRetries - 1
    · have hr0 : r = 0 := by omega
      subst hr0
      refine ⟨?_, ?_⟩ <;> simp [fetchLoopGo, hop, if_pos hl]
    · have hr1 : 1 ≤ r := by omega
      have hx := ih (attempt + 1) (by omega) hr1
      refine ⟨?_, ?_⟩
      · simp only [fetchLoopGo, hop, if_neg hl]
        exact hx.1
      · simp only [fetchLoopGo, hop, if_neg hl]
        rw [hx.2]
        omega

/-- If the related fetch fails at every attempt of every construction try, the
construction loop of `_extend_pmid_set` never builds the article and makes
`remaining * max_retries` provider invocations. -/
theorem constructArticleGo_fail {γ : Type} (relOp : Nat → Nat → Option γ)
    (jitter : Nat → ℚ) (maxRetries : Nat)
    (hop : ∀ i j, relOp i j = none) (hm : 1 ≤ maxRetries) :
    ∀ remaining attempt, attempt + remaining = maxRetries →
      (constructArticleGo relOp jitter maxRetries attempt remaining).1 = none ∧
      (constructArticleGo relOp jitter maxRetries attempt remaining).2
        = remaining * maxRetries := by
  intro remaining
  induction remaining with
  | zero => intro attempt _; simp [constructArticleGo]
  | succ r ih =>
    intro attempt hsum
    have hinner := fetchLoopGo_fail (relOp attempt) jitter maxRetries
      (hop attempt) maxRetries 0 (by omega) hm
    have hinner1 : (fetchLoop (relOp attempt) jitter maxRetries).1 = .error () :=
      hinner.1
    have hinner2 : (fetchLoop (relOp attempt) jitter maxRetries).2.2 = maxRetries :=
      hinner.2
    by_cases hl : attempt = maxRetries - 1
    · have hr0 : r = 0 := by omega
      subst hr0
      refine ⟨?_, ?_⟩
      · simp only [constructArticleGo, hinner1, if_pos hl]
      · simp only [constructArticleGo, hinner1, if_pos hl]
        rw [hinner2]
        omega
    · have hx := ih (attempt + 1) (by omega)
      refine ⟨?_, ?_⟩
      · simp only [constructArticleGo, hinner1, if_neg hl]
        exact hx.1
      · simp only [constructArticleGo, hinner1, if_neg hl]
        rw [hinner2, hx.2]
        ring

/-- C8: for an identifier whose related-set fetch always fails, the provider
fetch is invoked exactly `max_retries * max_retries` times — `max_retries`
inner retries inside the Article constructor, the whole construction retried
`max_retries` times by `_extend_pmid_set` — and no article is produced. -/
theorem c8_attempts {γ : Type} (relOp : Nat → Nat → Option γ)
    (jitter : Nat → ℚ) (maxRetries : Nat) (hop : ∀ i j, relOp i j = none) :
    (constructArticle relOp jitter maxRetries).1 = none ∧
    (constructArticle relOp jitter maxRetries).2 = maxRetries * maxRetries := by
  cases maxRetries with
  | zero => simp [constructArticle, constructArticleGo]
  | succ n =>
    exact constructArticleGo_fail relOp jitter (n + 1) hop (by omega) (n + 1) 0
      (by omega)

/-- C8 witness: with two retries everywhere and an always-failing related
fetch, exactly four provider invocations happen and no article is built. -/
theorem c8_witness :
    (constructArticle (fun _ _ => (none : Option Unit)) (fun _ => 0) 2).1 = none ∧
    (constructArticle (fun _ _ => (none : Option Unit)) (fun _ => 0) 2).2 = 2 * 2 :=
  c8_attempts (fun _ _ => (none : Option Unit)) (fun _ => 0) 2 (fun _ _ => rfl)

/-! ## Claims about the expansion -/

/-- Unfolding of the expansion at fuel 0: the recursive call, if reached,
raises immediately (Python's recursion limit), is caught, and the round's set
is returned. -/
theorem extendPmidSetInstr_zero (fetch : Nat → String → Option (List String))
    (raiseAt : Nat → Bool) (depth : Nat) (s : Finset String)
    (topk minPmid : Nat) :
    extendPmidSetInstr fetch raiseAt depth 0 s topk minPmid =
      if raiseAt depth ∨ s = ∅ then (.error (), 0)
      else if (roundNewSet fetch depth s (effectiveTopk minPmid s.card topk)).card < minPmid ∧
          (roundNewSet fetch depth s (effectiveTopk minPmid s.card topk)).Nonempty then
        (.ok (roundNewSet fetch depth s (effectiveTopk minPmid s.card topk)), 1)
      else (.ok (roundNewSet fetch depth s (effectiveTopk minPmid s.card topk)), 1) := by
  rfl

/-- Unfolding of the expansion at positive fuel. -/
theorem extendPmidSetInstr_succ (fetch : Nat → String → Option (List String))
    (raiseAt : Nat → Bool) (depth f : Nat) (s : Finset String)
    (topk minPmid : Nat) :
    extendPmidSetInstr fetch raiseAt depth (f + 1) s topk minPmid =
      if raiseAt depth ∨ s = ∅ then (.error (), 0)
      else if (roundNewSet fetch depth s (effectiveTopk minPmid s.card topk)).card < minPmid ∧
          (roundNewSet fetch depth s (effectiveTopk minPmid s.card topk)).Nonempty then
        match extendPmidSetInstr fetch raiseAt (depth + 1) f
            (roundNewSet fetch depth s (effectiveTopk minPmid s.card topk))
            (effectiveTopk minPmid s.card topk) minPmid with
        | (.error _, n) =>
          (.ok (roundNewSet fetch depth s (effectiveTopk minPmid s.card topk)), 1 + n)
        | (.ok res, n) => (.ok res, 1 + n)
      else (.ok (roundNewSet fetch depth s (effectiveTopk minPmid s.card topk)), 1) := by
  rfl

/-- Whatever the fetch outcomes, the fuel, and the raise oracle, a returned
set contains the input set. -/
theorem extend_superset_aux (fetch : Nat → String → Option (List String))
    (raiseAt : Nat → Bool) :
    ∀ fuel depth s topk minPmid r,
      (extendPmidSetInstr fetch raiseAt depth fuel s topk minPmid).1 = .ok r →
      s ⊆ r := by
  intro fuel
  induction fuel with
  | zero =>
    intro depth s topk minPmid r h
    rw [extendPmidSetInstr_zero] at h
    split at h
    · simp at h
    · split at h
      · simp at h
        rw [← h]
        exact Finset.subset_union_left
      · simp at h
        rw [← h]
        exact Finset.subset_union_left
  | succ f ih =>
    intro depth s topk minPmid r h
    rw [extendPmidSetInstr_succ] at h
    split at h
    · simp at h
    · split at h
      · split at h
        · simp at h
          rw [← h]
          exact Finset.subset_union_left
        · rename_i res n heq
          simp at h
          have hsub := ih (depth + 1)
            (roundNewSet fetch depth s (effectiveTopk minPmid s.card topk))
            (effectiveTopk minPmid s.card topk) minPmid res (by rw [heq])
          rw [← h]
          exact Finset.Subset.trans Finset.subset_union_left hsub
      · simp at h
        rw [← h]
        exact Finset.subset_union_left

/-- C2: for every non-empty input set and any outcome of the per-identifier
fetches (including arbitrary per-identifier failures), any set returned by
`_extend_pmid_set` is a superset of the input set. -/
theorem c2_monotonic (fetch : Nat → String → Option (List String))
    (raiseAt : Nat → Bool) (depth fuel : Nat) (s : Finset String)
    (topk minPmid : Nat) (r : Finset String) (hne : s.Nonempty)
    (h : extend_pmid_set fetch raiseAt depth fuel s topk minPmid = .ok r) :
    s ⊆ r :=
  extend_superset_aux fetch raiseAt fuel depth s topk minPmid r h

/-- C2 witness: a concrete one-round expansion from the seed set containing
only the pmid a, returning a superset of it. -/
theorem c2_witness : ({"a"} : Finset String) ⊆ ({"a", "b"} : Finset String) :=
  c2_monotonic (fun _ _ => some ["b"]) (fun _ => false) 0 1 {"a"} 5 2
    {"a", "b"} (by decide) (by rfl)

/-- C1 counterexample: with one seed pmid whose related list is always empty,
minSize 2, topK 5 and fuel 3 for the recursion depth, the first round leaves
the set unchanged, yet four rounds execute (the code recurses until the
recursion limit instead of stopping after the unchanged round, which the
claim says would be the single round executed). -/
theorem c1_counterexample :
    roundNewSet (fun _ _ => some []) 0 {"a"}
        (effectiveTopk 2 ({"a"} : Finset String).card 5) = {"a"} ∧
    (extendPmidSetInstr (fun _ _ => some []) (fun _ => false) 0 3 {"a"} 5 2).2
      = 4 := by
  refine ⟨by rfl, by rfl⟩

/-- C1 amended: when every round leaves the set unchanged (the fetches return
only empty or already-seen identifiers), the expansion still terminates for
every recursion-depth budget and returns that unchanged set — but not by
stopping at the first unchanged round: it keeps recursing while the set is
non-empty and smaller than minSize, until the recursion-depth budget is
exhausted and the resulting error is caught. -/
theorem c1_amended (fetch : Nat → String → Option (List String))
    (s : Finset String) (minPmid : Nat) (hs : s ≠ ∅)
    (hstable : ∀ d k, roundNewSet fetch d s k = s) :
    ∀ fuel depth topk,
      (extendPmidSetInstr fetch (fun _ => false) depth fuel s topk minPmid).1
        = .ok s := by
  intro fuel
  induction fuel with
  | zero =>
    intro depth topk
    rw [extendPmidSetInstr_zero, hstable]
    rw [if_neg (by simp [hs])]
    split <;> rfl
  | succ f ih =>
    intro depth topk
    rw [extendPmidSetInstr_succ, hstable]
    rw [if_neg (by simp [hs])]
    split
    · have hx := ih (depth + 1) (effectiveTopk minPmid s.card topk)
      rcases hres : extendPmidSetInstr fetch (fun _ => false) (depth + 1) f s
          (effectiveTopk minPmid s.card topk) minPmid with ⟨res, n⟩
      rw [hres] at hx
      cases res with
      | error e => rfl
      | ok t =>
        simp at hx
        simp [hx]
    · rfl

/-- C1 witness: the unchanged-round scenario of the counterexample indeed
returns the unchanged seed set. -/
theorem c1_witness :
    (extendPmidSetInstr (fun _ _ => some []) (fun _ => false) 0 3 {"a"} 5 2).1
      = .ok {"a"} :=
  c1_amended (fun _ _ => some []) {"a"} 2 (by decide)
    (fun d k => by simp [roundNewSet]) 3 0 5

/-- C6: if the recursive expansion call raises, the enclosing call catches the
error and returns exactly the set it computed in its own round (the union of
its input with the per-article top-k contributions), rather than propagating
the error. -/
theorem c6_catch (fetch : Nat → String → Option (List String))
    (raiseAt : Nat → Bool) (depth fuel : Nat) (s : Finset String)
    (topk minPmid : Nat)
    (h0 : raiseAt depth = false) (hs : s ≠ ∅)
    (h1 : raiseAt (depth + 1) = true)
    (hcard : (roundNewSet fetch depth s (effectiveTopk minPmid s.card topk)).card < minPmid)
    (hne : (roundNewSet fetch depth s (effectiveTopk minPmid s.card topk)).Nonempty) :
    extend_pmid_set fetch raiseAt depth (fuel + 1) s topk minPmid
      = .ok (roundNewSet fetch depth s (effectiveTopk minPmid s.card topk)) := by
  unfold extend_pmid_set
  rw [extendPmidSetInstr_succ]
  rw [if_neg (by simp [h0, hs])]
  rw [if_pos ⟨hcard, hne⟩]
  have hin : extendPmidSetInstr fetch raiseAt (depth + 1) fuel
      (roundNewSet fetch depth s (effectiveTopk minPmid s.card topk))
      (effectiveTopk minPmid s.card topk) minPmid = (.error (), 0) := by
    cases fuel with
    | zero => rw [extendPmidSetInstr_zero, if_pos (Or.inl h1)]
    | succ f => rw [extendPmidSetInstr_succ, if_pos (Or.inl h1)]
  rw [hin]

/-- C6 witness: a concrete round whose recursive call raises at entry and
whose result is the round's own union. -/
theorem c6_witness :
    extend_pmid_set (fun _ _ => some ["b"]) (fun d => d == 1) 0 1 {"a"} 5 3
      = .ok (roundNewSet (fun _ _ => some ["b"]) 0 {"a"}
          (effectiveTopk 3 ({"a"} : Finset String).card 5)) :=
  c6_catch (fun _ _ => some ["b"]) (fun d => d == 1) 0 0 {"a"} 5 3
    (by rfl) (by decide) (by rfl) (by decide) (by decide)

end ExtendPmid
